import Mathlib

/-!
# Verification of the piston resource dispatch layer

A shallow embedding of `piston/resource.py`: the permission model
(`PermissionsResource`), the generic dispatcher (`BaseResource.get_result`,
`BaseResource.dispatch`) and the default model-bound CRUD behaviour
(`BaseModelResource.exists/read/create/update/delete/get_fields`), together
with proofs of the specified properties.

The persistent store (Django's ORM) is modelled as a list of records, each
record a finite field/value association; `Model.objects.get(**kwargs)` becomes
`objectsGet`, which returns the unique matching record or signals
`DoesNotExist` / `MultipleObjectsReturned` exactly as the ORM does.

Pieces of the repository that are referenced by `resource.py` but whose code
lives outside it (`piston.utils.rc`, `list_to_dict`, `dict_to_list`, the
response cache, the serializer) are modelled from the spec; each such
definition carries a doc comment starting with `Modelled from the spec:`.
-/

set_option autoImplicit false

namespace Piston

/-- An HTTP-like request: method, header metadata (Django's `request.META`,
e.g. `HTTP_X_FIELDS`), and the deserialized body (`request.data`) as
field/value pairs. -/
structure Request where
  method : String
  meta : List (String × String)
  data : List (String × String)
deriving DecidableEq

/-- Modelled from the spec: the sentinel results of `piston.utils.rc`
(§6 "Sentinel results"): fixed (status code, conceptual meaning) pairs used
in place of a payload. -/
inductive Sentinel where
| ALL_OK
| DELETED
| BAD_REQUEST
| NOT_FOUND
| NOT_HERE
| DUPLICATE_ENTRY
| UNSUPPORTED_MEDIA_TYPE
deriving DecidableEq

/-- Modelled from the spec: the status code carried by each sentinel
(BAD_REQUEST 400, NOT_FOUND 404, UNSUPPORTED_MEDIA_TYPE 415,
DUPLICATE_ENTRY 409-style, ALL_OK 200, DELETED 204-style,
NOT_HERE 404-style). -/
def Sentinel.status : Sentinel → Nat
| .ALL_OK => 200
| .DELETED => 204
| .BAD_REQUEST => 400
| .NOT_FOUND => 404
| .NOT_HERE => 404
| .DUPLICATE_ENTRY => 409
| .UNSUPPORTED_MEDIA_TYPE => 415

/-- A persisted record: a finite field/value association (the backing
record type is opaque in the spec; its observable content is its fields). -/
abbrev Record : Type := List (String × String)

/-- What a CRUD method of a model-bound resource returns: a single record,
a queryset (collection of records), or a sentinel response. -/
inductive CrudResult where
| record (r : Record)
| collection (rs : List Record)
| sentinel (s : Sentinel)
deriving DecidableEq

/- Modelled from the spec: `piston.utils.rc` exposes each sentinel as a
ready-made result object. -/
namespace rc

def ALL_OK : CrudResult := .sentinel .ALL_OK

def DELETED : CrudResult := .sentinel .DELETED

def BAD_REQUEST : CrudResult := .sentinel .BAD_REQUEST

def NOT_FOUND : CrudResult := .sentinel .NOT_FOUND

def NOT_HERE : CrudResult := .sentinel .NOT_HERE

def DUPLICATE_ENTRY : CrudResult := .sentinel .DUPLICATE_ENTRY

def UNSUPPORTED_MEDIA_TYPE : CrudResult := .sentinel .UNSUPPORTED_MEDIA_TYPE

end rc

/-- The two lookup conditions the record store can raise:
`Model.DoesNotExist` and `Model.MultipleObjectsReturned`. -/
inductive DbError where
| DoesNotExist
| MultipleObjectsReturned
deriving DecidableEq

/-- A record matches a criteria set when every criterion field is present
with the given value (the ORM's `**kwargs` filter semantics). -/
def matchesCriteria (criteria : List (String × String)) (r : Record) : Bool :=
  criteria.all (fun kv => decide (List.lookup kv.1 r = some kv.2))

/-- Embeds `queryset.get(**criteria)` / `Model.objects.get(**criteria)`: the unique
matching record, or `DoesNotExist` / `MultipleObjectsReturned`. -/
def objectsGet (criteria : List (String × String)) (store : List Record) :
    Except DbError Record :=
  match store.filter (matchesCriteria criteria) with
  | [] => .error .DoesNotExist
  | [r] => .ok r
  | _ :: _ :: _ => .error .MultipleObjectsReturned

/-- Embeds `queryset.filter(**criteria)`. -/
def objectsFilter (criteria : List (String × String)) (store : List Record) :
    List Record :=
  store.filter (matchesCriteria criteria)

namespace BaseModelResource

/-- Embeds `BaseModelResource.flatten_dict`: `dict([(str(k), dct.get(k)) for k in
dct.keys()])` — with string keys this copies the body's field/value pairs
unchanged. -/
def flatten_dict (dct : List (String × String)) : List (String × String) := dct

/-- Embeds `BaseModelResource.exists` (named `existsQ` because `exists` is a
reserved Lean token): `self.model.objects.get(**kwargs)` with only
`DoesNotExist` caught (returning `false`); a `MultipleObjectsReturned`
from the store is not caught and escapes. -/
def existsQ (kwargs : List (String × String)) (store : List Record) :
    Except DbError Bool :=
  match objectsGet kwargs store with
  | .ok _ => .ok true
  | .error .DoesNotExist => .ok false
  | .error .MultipleObjectsReturned => .error .MultipleObjectsReturned

/-- Embeds `BaseModelResource.read`: with the primary-key field among `kwargs`,
fetch exactly one record by key (`NOT_FOUND` on miss, `BAD_REQUEST` on an
ambiguous match); otherwise return the filtered collection. -/
def read (pkfield : String) (kwargs : List (String × String))
    (store : List Record) : CrudResult :=
  match List.lookup pkfield kwargs with
  | some pkv =>
    match objectsGet [(pkfield, pkv)] store with
    | .ok r => .record r
    | .error .DoesNotExist => rc.NOT_FOUND
    | .error .MultipleObjectsReturned => rc.BAD_REQUEST
  | none => .collection (objectsFilter kwargs store)

/-- Embeds `BaseModelResource.create`: flatten the body into `attrs`; an existing
exact match gives `DUPLICATE_ENTRY` with no write, `DoesNotExist` builds and
saves `self.model(**attrs)` and returns it, `MultipleObjectsReturned` also
gives `DUPLICATE_ENTRY`. Returns the result together with the new store. -/
def create (reqdata : List (String × String)) (store : List Record) :
    CrudResult × List Record :=
  match objectsGet (flatten_dict reqdata) store with
  | .ok _ => (rc.DUPLICATE_ENTRY, store)
  | .error .DoesNotExist =>
    (.record (flatten_dict reqdata), store ++ [flatten_dict reqdata])
  | .error .MultipleObjectsReturned => (rc.DUPLICATE_ENTRY, store)

/-- Embeds `setattr(inst, k, v)` on a record: overwrite the field if present,
append it otherwise. -/
def setField : Record → String → String → Record
| [], k, v => [(k, v)]
| kv :: r, k, v =>
  if kv.1 = k then (k, v) :: r else kv :: setField r k v

/-- Embeds `for k, v in attrs.iteritems(): setattr(inst, k, v)`. -/
def setAttrs (inst : Record) (attrs : List (String × String)) : Record :=
  attrs.foldl (fun r kv => setField r kv.1 kv.2) inst

/-- Embeds `inst.save()` after an update: replace the (unique) record fetched by
primary key with the updated one. -/
def saveReplace (pkfield pkv : String) (updated : Record)
    (store : List Record) : List Record :=
  store.map (fun r => if matchesCriteria [(pkfield, pkv)] r then updated else r)

/-- Embeds `BaseModelResource.update`: `BAD_REQUEST` without the primary key among
`kwargs`; fetch by key (`NOT_FOUND` / `BAD_REQUEST` on miss / ambiguity);
apply every body field onto the record, save, return `ALL_OK`. -/
def update (pkfield : String) (kwargs : List (String × String))
    (reqdata : List (String × String)) (store : List Record) :
    CrudResult × List Record :=
  match List.lookup pkfield kwargs with
  | none => (rc.BAD_REQUEST, store)
  | some pkv =>
    match objectsGet [(pkfield, pkv)] store with
    | .error .DoesNotExist => (rc.NOT_FOUND, store)
    | .error .MultipleObjectsReturned => (rc.BAD_REQUEST, store)
    | .ok inst =>
      (rc.ALL_OK,
        saveReplace pkfield pkv (setAttrs inst (flatten_dict reqdata)) store)

/-- Embeds `BaseModelResource.delete`: fetch by arbitrary criteria; on the unique
match delete it and return `DELETED`; `MultipleObjectsReturned` gives
`DUPLICATE_ENTRY`, `DoesNotExist` gives `NOT_HERE`. -/
def delete (criteria : List (String × String)) (store : List Record) :
    CrudResult × List Record :=
  match objectsGet criteria store with
  | .ok _ => (rc.DELETED, store.filter (fun r => !(matchesCriteria criteria r)))
  | .error .MultipleObjectsReturned => (rc.DUPLICATE_ENTRY, store)
  | .error .DoesNotExist => (rc.NOT_HERE, store)

end BaseModelResource

/-- Python's `s.split(',')` on the character list: splitting the empty
string gives `[""]`, a trailing separator gives a final `""` fragment. -/
def pySplitCommaAux : List Char → List Char → List String
| [], acc => [String.mk acc.reverse]
| c :: cs, acc =>
  if c = ',' then String.mk acc.reverse :: pySplitCommaAux cs []
  else pySplitCommaAux cs (c :: acc)

/-- Python's `s.split(',')`. -/
def pySplitComma (s : String) : List String :=
  pySplitCommaAux s.data []

/-- Python's `s.upper()`. -/
def pyUpper (s : String) : String :=
  String.mk (s.data.map Char.toUpper)

/-- Python dict assignment `d[k] = v` on an insertion-ordered mapping:
overwrite in place when the key is present, append otherwise. -/
def dictInsert {β : Type} : List (String × β) → String → β → List (String × β)
| [], k, v => [(k, v)]
| kv :: d, k, v => if kv.1 = k then (k, v) :: d else kv :: dictInsert d k v

/-- The exceptions that can cross function boundaries in the dispatch layer:
`Http404` (raised for an unrouted verb), the two deserialization failures,
`NotImplementedError` (the unimplemented CRUD stubs of `BaseResource`), and
`KeyError` (indexing a dict with a missing key). -/
inductive PistonExn where
| Http404
| MimerDataException
| UnsupportedMediaTypeException
| NotImplementedError
| KeyError (k : String)
deriving DecidableEq

namespace PermissionsResource

/-- A per-verb permission validator: `(request, obj=None, via=None) -> bool`. -/
def PermValidator : Type := Request → Option Record → Option String → Bool

/-- Embeds `'GET' in cls.allowed_methods` — the arguments are ignored. -/
def has_read_permission (allowed_methods : List String) : PermValidator :=
  fun _request _obj _via => allowed_methods.contains "GET"

/-- Embeds `'POST' in cls.allowed_methods` — the arguments are ignored. -/
def has_create_permission (allowed_methods : List String) : PermValidator :=
  fun _request _obj _via => allowed_methods.contains "POST"

/-- Embeds `'PUT' in cls.allowed_methods` — the arguments are ignored. -/
def has_update_permission (allowed_methods : List String) : PermValidator :=
  fun _request _obj _via => allowed_methods.contains "PUT"

/-- Embeds `'DELETE' in cls.allowed_methods` — the arguments are ignored. -/
def has_delete_permission (allowed_methods : List String) : PermValidator :=
  fun _request _obj _via => allowed_methods.contains "DELETE"

/-- The literal dict built inside `get_permission_validators`. -/
def all_permissions_validators (allowed_methods : List String) :
    List (String × PermValidator) :=
  [("GET", has_read_permission allowed_methods),
   ("PUT", has_update_permission allowed_methods),
   ("POST", has_create_permission allowed_methods),
   ("DELETE", has_delete_permission allowed_methods)]

/-- The `for allowed_method in allowed_methods:` loop:
`permissions_validators[allowed_method] =
all_permissions_validators[allowed_method]`; indexing a dict with a key it
does not hold raises `KeyError`. -/
def buildValidators (allowed_methods : List String) :
    List String → List (String × PermValidator) →
    Except PistonExn (List (String × PermValidator))
| [], acc => .ok acc
| m :: ms, acc =>
  match List.lookup m (all_permissions_validators allowed_methods) with
  | some v => buildValidators allowed_methods ms (dictInsert acc m v)
  | none => .error (.KeyError m)

/-- Embeds `PermissionsResource.get_permission_validators`: with a truthy
(non-empty) `restricted_methods`, iterate over
`set(restricted_methods) & set(cls.allowed_methods)`, otherwise over
`set(cls.allowed_methods)` (sets modelled as deduplicated lists). -/
def get_permission_validators (allowed_methods : List String)
    (restricted_methods : Option (List String)) :
    Except PistonExn (List (String × PermValidator)) :=
  let methods :=
    match restricted_methods with
    | some r =>
      if r.isEmpty then allowed_methods.dedup
      else (r.filter (fun m => allowed_methods.contains m)).dedup
    | none => allowed_methods.dedup
  buildValidators allowed_methods methods []

/-- The key set of a validator mapping (`none` when the call raised). -/
def validatorKeys (e : Except PistonExn (List (String × PermValidator))) :
    Option (List String) :=
  match e with
  | .ok d => some (d.map Prod.fst)
  | .error _ => none

/-- The exception of a validator-mapping call, when one was raised. -/
def validatorErr (e : Except PistonExn (List (String × PermValidator))) :
    Option PistonExn :=
  match e with
  | .ok _ => none
  | .error x => some x

end PermissionsResource

namespace BaseResource

open PermissionsResource

/-- Embeds `BaseResource.get_allowed_methods`: evaluate every validator of
`get_permission_validators(restricted_methods)` at `(request, obj)` and
collect the verbs whose validator returned true. -/
def get_allowed_methods (allowed_methods : List String) (request : Request)
    (obj : Option Record) (restricted_methods : Option (List String)) :
    Except PistonExn (List String) :=
  match get_permission_validators allowed_methods restricted_methods with
  | .error e => .error e
  | .ok validators =>
    .ok (validators.foldl
      (fun acc kv => if kv.2 request obj none then acc ++ [kv.1] else acc) [])

/-- A payload as seen by `get_result`'s normalization: either a plain CRUD
value, or a raw transport response (`django.http.HttpResponse`) carrying a
status code and body content. The `rc` sentinels surface their own status
code at the transport layer (spec §6 lists one per sentinel), so they are
normalized like transport responses but keep their identity. -/
inductive Payload where
| value (r : CrudResult)
| httpResponse (status_code : Nat) (container : String)
deriving DecidableEq

/-- What an invoked CRUD method can hand back to `get_result`: a payload,
or a `HeadersResult` wrapping a payload with explicit headers and status. -/
inductive RawResult where
| payload (p : Payload)
| headersResult (p : Payload) (http_headers : List (String × String))
    (status_code : Nat)
deriving DecidableEq

/-- The normalized result component returned by `get_result`. -/
inductive FinalResult where
| record (r : Record)
| collection (rs : List Record)
| sentinelContainer (s : Sentinel)
| container (c : String)
deriving DecidableEq

/-- The serialized stream: a plain string body, or a full transport
response produced by the serializer. -/
structure HttpResp where
  status_code : Nat
  content_type : String
  content : String
  headers : List (String × String)
deriving DecidableEq

inductive Stream where
| str (s : String)
| response (r : HttpResp)
deriving DecidableEq

/-- A resource instance as the dispatcher sees it: the deserializer, the
four CRUD attributes (`none` models a missing attribute, so
`getattr(self, name, None)` is `None`), the serializer (external codec,
abstracted as a function), and the serialization format names
(`Emitter.SERIALIZATION_TYPES`, external). -/
structure Resource where
  deserialize : Request → Except PistonExn Request
  read : Option (Request → Except PistonExn RawResult)
  create : Option (Request → Except PistonExn RawResult)
  update : Option (Request → Except PistonExn RawResult)
  delete : Option (Request → Except PistonExn RawResult)
  serialize : Request → FinalResult → Stream × String
  serializationTypes : List String

/-- Embeds `BaseResource.callmap`. -/
def callmap : List (String × String) :=
  [("GET", "read"), ("POST", "create"), ("PUT", "update"),
   ("DELETE", "delete")]

/-- Embeds `getattr(self, name, None)` over the four CRUD attribute names. -/
def getMeth (res : Resource) : String →
    Option (Request → Except PistonExn RawResult)
| "read" => res.read
| "create" => res.create
| "update" => res.update
| "delete" => res.delete
| _ => none

/-- Embeds `BaseResource.get_result`: deserialize, route the upper-cased method
through `callmap`, raise `Http404` when no method is found, invoke the
method; catch exactly `MimerDataException` (→ `rc.BAD_REQUEST`) and
`UnsupportedMediaTypeException` (→ `rc.UNSUPPORTED_MEDIA_TYPE`); then
unwrap a `HeadersResult` (taking its headers and status) and a transport
response (taking its status and body content — the `rc` sentinels are
transport responses carrying their sentinel status). Every other exception
propagates. -/
def get_result (res : Resource) (request : Request) :
    Except PistonExn (FinalResult × List (String × String) × Nat) :=
  let attempt : Except PistonExn RawResult :=
    match res.deserialize request with
    | .error e => .error e
    | .ok request' =>
      let rm := pyUpper request'.method
      match getMeth res ((List.lookup rm callmap).getD "") with
      | none => .error .Http404
      | some meth => meth request'
  let handled : Except PistonExn RawResult :=
    match attempt with
    | .error .MimerDataException => .ok (.payload (.value rc.BAD_REQUEST))
    | .error .UnsupportedMediaTypeException =>
      .ok (.payload (.value rc.UNSUPPORTED_MEDIA_TYPE))
    | r => r
  match handled with
  | .error e => .error e
  | .ok raw =>
    let unwrapped :=
      match raw with
      | .payload p => (p, ([] : List (String × String)), 200)
      | .headersResult p hs st => (p, hs, st)
    match unwrapped with
    | (.httpResponse st c, hs, _) => .ok (.container c, hs, st)
    | (.value (.sentinel s), hs, _) => .ok (.sentinelContainer s, hs, s.status)
    | (.value (.record r), hs, st) => .ok (.record r, hs, st)
    | (.value (.collection rs), hs, st) => .ok (.collection rs, hs, st)

/-- Embeds `BaseResource.get_headers`: add the serialization-format enumeration and
the cache-control directive to the outgoing headers. -/
def get_headers (res : Resource) (http_headers : List (String × String)) :
    List (String × String) :=
  dictInsert
    (dictInsert http_headers "X-Serialization-Format-Options"
      (String.intercalate "," res.serializationTypes))
    "Cache-Control" "must-revalidate, private"

/-- Modelled from the spec: the pluggable response cache, keyed by request
(`cache.get_response(request)`). -/
def cacheGet (c : List (Request × HttpResp)) (request : Request) :
    Option HttpResp :=
  List.lookup request c

/-- Modelled from the spec: `cache.cache_response(request, resp)` records
the response under the request key (last write wins). -/
def cacheSet (c : List (Request × HttpResp)) (request : Request)
    (resp : HttpResp) : List (Request × HttpResp) :=
  (request, resp) :: c

/-- Embeds `BaseResource.dispatch`: cache short-circuit, `get_result`, serialize,
wrap a non-response stream into a response, set the headers of
`get_headers`, store into the cache, return. A `cache` of `none` models
`self.cache = None`; the second component is the cache state after the
call. -/
def dispatch (res : Resource) (cache : Option (List (Request × HttpResp)))
    (request : Request) :
    Except PistonExn HttpResp × Option (List (Request × HttpResp)) :=
  let hit :=
    match cache with
    | some c => cacheGet c request
    | none => none
  match hit with
  | some response => (.ok response, cache)
  | none =>
    match get_result res request with
    | .error e => (.error e, cache)
    | .ok (result, http_headers, status_code) =>
      let streamCt := res.serialize request result
      let resp : HttpResp :=
        match streamCt.1 with
        | .str s =>
          { status_code := status_code, content_type := streamCt.2,
            content := s, headers := [] }
        | .response r => r
      let resp :=
        { resp with
          headers := (get_headers res http_headers).foldl
            (fun hs kv => dictInsert hs kv.1 kv.2) resp.headers }
      match cache with
      | some c => (.ok resp, some (cacheSet c request resp))
      | none => (.ok resp, none)

end BaseResource

/-- Modelled from the spec: a field spec is a leaf field name or a field
name with a nested field-spec list for a related object (spec §9:
"FieldSpec = leaf name | (name, nested FieldSpec list)"). -/
inductive FieldSpec where
| leaf (name : String)
| node (name : String) (sub : List FieldSpec)

def FieldSpec.name : FieldSpec → String
| .leaf n => n
| .node n _ => n

def FieldSpec.sub : FieldSpec → List FieldSpec
| .leaf _ => []
| .node _ s => s

/-- Modelled from the spec: `piston.utils.list_to_dict` converts a declared
field list into an insertion-ordered mapping field name → nested sub-spec
(a leaf maps to the empty sub-spec). -/
def list_to_dict (l : List FieldSpec) : List (String × List FieldSpec) :=
  l.foldl (fun d f => dictInsert d f.name f.sub) []

/-- Modelled from the spec: `piston.utils.dict_to_list` converts the
mapping back to an ordered field list, preserving declared nesting. -/
def dict_to_list (d : List (String × List FieldSpec)) : List FieldSpec :=
  d.map (fun kv => if kv.2.isEmpty then .leaf kv.1 else .node kv.1 kv.2)

namespace BaseModelResource

/-- The header-directive loop of `get_fields`: for each comma-separated
name, `if field in allowed_fields: fields[field] = allowed_fields.get(field)`
— unknown names are dropped. -/
def selectFields (allowed : List (String × List FieldSpec))
    (names : List String) (acc : List (String × List FieldSpec)) :
    List (String × List FieldSpec) :=
  names.foldl
    (fun acc field =>
      match List.lookup field allowed with
      | some v => dictInsert acc field v
      | none => acc)
    acc

/-- Embeds `BaseModelResource.get_fields`: build the allowed mapping from
`self.fields`; a non-empty explicit `X-Fields` selection is returned
immediately; otherwise the collection defaults (when the result is a
`QuerySet`) or the object defaults, with the allowed `X-Extra-Fields`
names merged in. A missing header reads as `''`, whose single split
fragment `''` is dropped unless a field named `''` is declared. -/
def get_fields (fields : List FieldSpec)
    (default_list_fields default_obj_fields : List FieldSpec)
    (request : Request) (resultIsQuerySet : Bool) : List FieldSpec :=
  let allowed_fields := list_to_dict fields
  let x_fields := (List.lookup "HTTP_X_FIELDS" request.meta).getD ""
  let sel := selectFields allowed_fields (pySplitComma x_fields) []
  if sel.isEmpty then
    let base := if resultIsQuerySet then default_list_fields
                else default_obj_fields
    let x_extra_fields :=
      (List.lookup "HTTP_X_EXTRA_FIELDS" request.meta).getD ""
    dict_to_list
      (selectFields allowed_fields (pySplitComma x_extra_fields)
        (list_to_dict base))
  else
    dict_to_list sel

end BaseModelResource

section DictLemmas

variable {β : Type}

theorem lookup_isSome_iff (k : String) (d : List (String × β)) :
    (List.lookup k d).isSome = true ↔ k ∈ d.map Prod.fst := by
  induction d with
  | nil => simp [List.lookup]
  | cons kv t ih =>
    obtain ⟨a, b⟩ := kv
    by_cases h : k = a
    · subst h
      simp [List.lookup]
    · have hb : (k == a) = false := by simp [h]
      simp only [List.lookup, hb]
      rw [ih]
      simp [h]

theorem lookup_mem {k : String} {v : β} {d : List (String × β)}
    (h : List.lookup k d = some v) : (k, v) ∈ d := by
  induction d with
  | nil => simp [List.lookup] at h
  | cons kv t ih =>
    obtain ⟨a, b⟩ := kv
    by_cases ha : k = a
    · subst ha
      simp [List.lookup] at h
      subst h
      exact List.mem_cons_self _ _
    · have hb : (k == a) = false := by simp [ha]
      simp only [List.lookup, hb] at h
      exact List.mem_cons_of_mem _ (ih h)

theorem mem_keys_dictInsert (n k : String) (v : β) (d : List (String × β)) :
    n ∈ (dictInsert d k v).map Prod.fst ↔ n ∈ d.map Prod.fst ∨ n = k := by
  induction d with
  | nil => simp [dictInsert]
  | cons kv t ih =>
    by_cases h : kv.1 = k
    · simp [dictInsert, h]
      tauto
    · simp [dictInsert, h, ih]
      tauto

theorem mem_dictInsert {kv : String × β} {d : List (String × β)} {k : String}
    {v : β} (h : kv ∈ dictInsert d k v) : kv ∈ d ∨ kv = (k, v) := by
  induction d with
  | nil =>
    simp [dictInsert] at h
    exact Or.inr h
  | cons kv' t ih =>
    by_cases h' : kv'.1 = k
    · simp [dictInsert, h'] at h
      rcases h with h | h
      · exact Or.inr h
      · exact Or.inl (List.mem_cons_of_mem _ h)
    · simp [dictInsert, h'] at h
      rcases h with h | h
      · exact Or.inl (by simp [h])
      · rcases ih h with h2 | h2
        · exact Or.inl (List.mem_cons_of_mem _ h2)
        · exact Or.inr h2

theorem keys_dict_to_list (d : List (String × List FieldSpec)) :
    (dict_to_list d).map FieldSpec.name = d.map Prod.fst := by
  unfold dict_to_list
  rw [List.map_map]
  apply List.map_congr_left
  intro kv _
  by_cases h : kv.2.isEmpty <;> simp [h, FieldSpec.name]

theorem mem_keys_foldl_dictInsert (l : List FieldSpec)
    (acc : List (String × List FieldSpec)) (n : String) :
    n ∈ (l.foldl (fun d f => dictInsert d f.name f.sub) acc).map Prod.fst ↔
      n ∈ acc.map Prod.fst ∨ n ∈ l.map FieldSpec.name := by
  induction l generalizing acc with
  | nil => simp
  | cons f t ih =>
    simp only [List.foldl_cons, ih, mem_keys_dictInsert, List.map_cons,
      List.mem_cons]
    tauto

theorem mem_keys_list_to_dict (l : List FieldSpec) (n : String) :
    n ∈ (list_to_dict l).map Prod.fst ↔ n ∈ l.map FieldSpec.name := by
  simpa [list_to_dict] using mem_keys_foldl_dictInsert l [] n

theorem selectFields_cons (allowed : List (String × List FieldSpec))
    (m : String) (ms : List String) (acc : List (String × List FieldSpec)) :
    BaseModelResource.selectFields allowed (m :: ms) acc =
      BaseModelResource.selectFields allowed ms
        (match List.lookup m allowed with
         | some v => dictInsert acc m v
         | none => acc) := rfl

theorem mem_keys_selectFields (allowed : List (String × List FieldSpec))
    (names : List String) (acc : List (String × List FieldSpec)) (n : String) :
    n ∈ (BaseModelResource.selectFields allowed names acc).map Prod.fst ↔
      n ∈ acc.map Prod.fst ∨ (n ∈ names ∧ n ∈ allowed.map Prod.fst) := by
  induction names generalizing acc with
  | nil => simp [BaseModelResource.selectFields]
  | cons m ms ih =>
    rw [selectFields_cons]
    cases hl : List.lookup m allowed with
    | none =>
      have hm : m ∉ allowed.map Prod.fst := by
        rw [← lookup_isSome_iff]
        simp [hl]
      simp only [ih, List.mem_cons]
      constructor
      · tauto
      · rintro (h | ⟨(rfl | h1), h2⟩)
        · exact Or.inl h
        · exact absurd h2 hm
        · exact Or.inr ⟨h1, h2⟩
    | some v =>
      have hm : m ∈ allowed.map Prod.fst := by
        rw [← lookup_isSome_iff]
        simp [hl]
      simp only [ih, mem_keys_dictInsert, List.mem_cons]
      constructor
      · rintro ((h | rfl) | h)
        · exact Or.inl h
        · exact Or.inr ⟨Or.inl rfl, hm⟩
        · exact Or.inr ⟨Or.inr h.1, h.2⟩
      · rintro (h | ⟨(rfl | h1), h2⟩)
        · exact Or.inl (Or.inl h)
        · exact Or.inl (Or.inr rfl)
        · exact Or.inr ⟨h1, h2⟩

theorem selectFields_nil_iff (allowed : List (String × List FieldSpec))
    (names : List String) :
    BaseModelResource.selectFields allowed names [] = [] ↔
      ¬ ∃ n ∈ names, n ∈ allowed.map Prod.fst := by
  constructor
  · intro h ⟨n, hn, hn2⟩
    have := (mem_keys_selectFields allowed names [] n).2 (Or.inr ⟨hn, hn2⟩)
    rw [h] at this
    simp at this
  · intro h
    rw [List.eq_nil_iff_forall_not_mem]
    intro kv hkv
    have hk : kv.1 ∈
        (BaseModelResource.selectFields allowed names []).map Prod.fst :=
      List.mem_map_of_mem Prod.fst hkv
    rcases (mem_keys_selectFields allowed names [] kv.1).1 hk with h1 | h1
    · simp at h1
    · exact h ⟨kv.1, h1.1, h1.2⟩

theorem lookup_of_mem_nodup {β : Type} {l : List (String × β)}
    (h : (l.map Prod.fst).Nodup) {k : String} {v : β} (hm : (k, v) ∈ l) :
    List.lookup k l = some v := by
  induction l with
  | nil => simp at hm
  | cons kv t ih =>
    obtain ⟨a, b⟩ := kv
    rw [List.map_cons, List.nodup_cons] at h
    rcases List.mem_cons.mp hm with heq | hm2
    · cases heq
      simp [List.lookup]
    · have hk : k ∈ t.map Prod.fst := List.mem_map.mpr ⟨(k, v), hm2, rfl⟩
      have hb : (k == a) = false := by
        simp only [beq_eq_false_iff_ne, ne_eq]
        intro he
        exact h.1 (he ▸ hk)
      simp only [List.lookup, hb]
      exact ih h.2 hm2

end DictLemmas

/-- A body with distinct field names matches the record built from it. -/
theorem matchesCriteria_self (attrs : List (String × String))
    (h : (attrs.map Prod.fst).Nodup) :
    matchesCriteria attrs attrs = true := by
  unfold matchesCriteria
  rw [List.all_eq_true]
  intro kv hkv
  rw [decide_eq_true_iff]
  exact lookup_of_mem_nodup h hkv

namespace PermissionsResource

/-- The four verbs for which a concrete validator exists. -/
def knownVerbs : List String := ["GET", "PUT", "POST", "DELETE"]

theorem lookup_all_validators_isSome (am : List String) {m : String}
    (h : m ∈ knownVerbs) :
    (List.lookup m (all_permissions_validators am)).isSome = true := by
  simp [knownVerbs] at h
  rcases h with rfl | rfl | rfl | rfl <;> rfl

/-- Every validator stored in the literal dict ignores its arguments. -/
theorem all_validators_const (am : List String) {k : String} {v : PermValidator}
    (h : List.lookup k (all_permissions_validators am) = some v) :
    ∀ r o vv r' o' vv', v r o vv = v r' o' vv' := by
  have hm := Piston.lookup_mem h
  simp [all_permissions_validators, Prod.ext_iff] at hm
  rcases hm with ⟨_, rfl⟩ | ⟨_, rfl⟩ | ⟨_, rfl⟩ | ⟨_, rfl⟩ <;>
    exact fun r o vv r' o' vv' => rfl

/-- Every entry of a successful `buildValidators` run that is not carried
over from the accumulator comes from the literal dict. -/
theorem buildValidators_mem (am : List String) :
    ∀ (ms : List String) (acc d : List (String × PermValidator)),
      buildValidators am ms acc = .ok d →
      ∀ kv ∈ d, kv ∈ acc ∨
        List.lookup kv.1 (all_permissions_validators am) = some kv.2 := by
  intro ms
  induction ms with
  | nil =>
    intro acc d h kv hkv
    simp [buildValidators] at h
    subst h
    exact Or.inl hkv
  | cons m ms ih =>
    intro acc d h kv hkv
    cases hv : List.lookup m (all_permissions_validators am) with
    | none => simp [buildValidators, hv] at h
    | some v =>
      simp only [buildValidators, hv] at h
      rcases ih _ _ h kv hkv with h2 | h2
      · rcases Piston.mem_dictInsert h2 with h3 | h3
        · exact Or.inl h3
        · subst h3
          exact Or.inr hv
      · exact Or.inr h2

/-- A successful `buildValidators` run exists whenever every iterated verb
has a concrete validator, and its key set is the accumulator's keys plus the
iterated verbs. -/
theorem buildValidators_ok (am : List String) (ms : List String)
    (acc : List (String × PermValidator))
    (hms : ∀ m ∈ ms,
      (List.lookup m (all_permissions_validators am)).isSome = true) :
    ∃ d, buildValidators am ms acc = .ok d ∧
      ∀ k, k ∈ d.map Prod.fst ↔ k ∈ acc.map Prod.fst ∨ k ∈ ms := by
  induction ms generalizing acc with
  | nil => exact ⟨acc, rfl, by simp⟩
  | cons m ms ih =>
    have hm := hms m (List.mem_cons_self _ _)
    obtain ⟨v, hv⟩ := Option.isSome_iff_exists.mp hm
    obtain ⟨d, hd, hkeys⟩ :=
      ih (dictInsert acc m v) (fun m' h' => hms m' (List.mem_cons_of_mem _ h'))
    refine ⟨d, ?_, ?_⟩
    · simp only [buildValidators, hv]
      exact hd
    · intro k
      rw [hkeys k, Piston.mem_keys_dictInsert]
      simp only [List.mem_cons]
      tauto

/-- Definitional unfolding of `get_permission_validators`. -/
theorem get_permission_validators_eq (am : List String)
    (restricted : Option (List String)) :
    get_permission_validators am restricted =
      buildValidators am
        (match restricted with
         | some rl =>
           if rl.isEmpty then am.dedup
           else (rl.filter (fun m => am.contains m)).dedup
         | none => am.dedup) [] := rfl

end PermissionsResource

namespace BaseResource

open PermissionsResource

/-- With all its validators constant in `(request, obj)`, the verb-collecting
fold of `get_allowed_methods` is constant in `(request, obj)`. -/
theorem foldl_validators_const (d : List (String × PermValidator))
    (hconst : ∀ kv ∈ d, ∀ r o vv r' o' vv',
      (kv.2 : PermValidator) r o vv = kv.2 r' o' vv')
    (r r' : Request) (o o' : Option Record) (init : List String) :
    d.foldl (fun acc kv => if kv.2 r o none then acc ++ [kv.1] else acc)
        init =
      d.foldl (fun acc kv => if kv.2 r' o' none then acc ++ [kv.1] else acc)
        init := by
  induction d generalizing init with
  | nil => rfl
  | cons kv t ih =>
    simp only [List.foldl_cons]
    rw [hconst kv (List.mem_cons_self _ _) r o none r' o' none]
    exact ih (fun kv' h' => hconst kv' (List.mem_cons_of_mem _ h')) _

end BaseResource

/-! ## The claims -/

open PermissionsResource BaseModelResource

/-- C10: the default per-verb permission validators ignore the caller, the
target object and the access path — each returns, for every pair of
argument triples, the same boolean, namely whether the corresponding verb
is in the class's `allowed_methods`; consequently `get_allowed_methods`
returns the same verb list for every `(caller, object)` pair. -/
theorem C10_validators_ignore_arguments (am : List String)
    (r r' : Request) (o o' : Option Record) (v v' : Option String) :
    (has_read_permission am r o v = has_read_permission am r' o' v' ∧
     has_read_permission am r o v = am.contains "GET") ∧
    (has_create_permission am r o v = has_create_permission am r' o' v' ∧
     has_create_permission am r o v = am.contains "POST") ∧
    (has_update_permission am r o v = has_update_permission am r' o' v' ∧
     has_update_permission am r o v = am.contains "PUT") ∧
    (has_delete_permission am r o v = has_delete_permission am r' o' v' ∧
     has_delete_permission am r o v = am.contains "DELETE") ∧
    (∀ restricted, BaseResource.get_allowed_methods am r o restricted =
      BaseResource.get_allowed_methods am r' o' restricted) := by
  refine ⟨⟨rfl, rfl⟩, ⟨rfl, rfl⟩, ⟨rfl, rfl⟩, ⟨rfl, rfl⟩, ?_⟩
  intro restricted
  unfold BaseResource.get_allowed_methods
  cases hg : get_permission_validators am restricted with
  | error e => rfl
  | ok d =>
    rw [get_permission_validators_eq] at hg
    have hconst : ∀ kv ∈ d, ∀ r₁ o₁ vv₁ r₂ o₂ vv₂,
        (kv.2 : PermValidator) r₁ o₁ vv₁ = kv.2 r₂ o₂ vv₂ := by
      intro kv hkv
      rcases buildValidators_mem am _ [] d hg kv hkv with h | h
      · simp at h
      · exact all_validators_const am h
    exact congrArg Except.ok
      (BaseResource.foldl_validators_const d hconst r r' o o' [])

/-- C5 counterexample. The claim predicts (a) that the returned key set is
the intersection of the allowed verbs, the restriction set when given, and
the four known verbs, and (b) that a verb outside the four known verbs
never causes a failure. Both fail on the code: with the restriction set
`[]` given, the intersection is empty, yet the code (Python truthiness:
`if restricted_methods:`) ignores the empty restriction and returns a
mapping for all four allowed verbs; and with an allowed verb `"PATCH"`
outside the four known verbs, indexing the validator dict raises
`KeyError("PATCH")` because the code never intersects with the four known
verbs. -/
theorem C5_counterexample :
    validatorKeys (get_permission_validators ["GET", "POST", "PUT", "DELETE"]
        (some [])) = some ["GET", "POST", "PUT", "DELETE"] ∧
    validatorErr (get_permission_validators ["GET", "PATCH"] none) =
      some (.KeyError "PATCH") := by
  constructor <;> decide

/-- C5 (amended): for every resource whose allowed verbs all lie among the
four known verbs (the declared resource invariant) and every optional
restriction set, `get_permission_validators` returns — without error and
without side effects — a mapping whose key set is the set of allowed verbs,
further intersected with the restriction set when that set is given and
non-empty (an empty or absent restriction set is ignored); each key is
mapped to its concrete validator (the corresponding entry of the literal
validator dict). -/
theorem C5_get_permission_validators (am : List String)
    (restricted : Option (List String))
    (h4 : ∀ m ∈ am, m ∈ knownVerbs) :
    ∃ d, get_permission_validators am restricted = .ok d ∧
      (∀ k, k ∈ d.map Prod.fst ↔
        (k ∈ am ∧ k ∈ knownVerbs ∧
          ∀ rl, restricted = some rl → rl ≠ [] → k ∈ rl)) ∧
      (∀ k, k ∈ d.map Prod.fst →
        List.lookup k d = List.lookup k (all_permissions_validators am)) := by
  have key : ∀ ms : List String, (∀ m ∈ ms, m ∈ am) →
      ∃ d, buildValidators am ms [] = .ok d ∧
        (∀ k, k ∈ d.map Prod.fst ↔ k ∈ ms) ∧
        (∀ k, k ∈ d.map Prod.fst →
          List.lookup k d = List.lookup k (all_permissions_validators am)) := by
    intro ms hsub
    obtain ⟨d, hd, hkeys⟩ := buildValidators_ok am ms []
      (fun m hm => lookup_all_validators_isSome am (h4 m (hsub m hm)))
    refine ⟨d, hd, fun k => by simpa using hkeys k, ?_⟩
    intro k hk
    have hs : (List.lookup k d).isSome = true := (lookup_isSome_iff k d).2 hk
    obtain ⟨v, hv⟩ := Option.isSome_iff_exists.mp hs
    have hmem := lookup_mem hv
    rcases buildValidators_mem am ms [] d hd (k, v) hmem with h | h
    · simp at h
    · rw [hv]
      exact h.symm
  cases restricted with
  | none =>
    obtain ⟨d, hd, hkeys, hlk⟩ := key am.dedup (fun m hm => List.mem_dedup.mp hm)
    refine ⟨d, hd, ?_, hlk⟩
    intro k
    rw [hkeys k, List.mem_dedup]
    constructor
    · intro hk
      exact ⟨hk, h4 k hk, fun rl h => nomatch h⟩
    · rintro ⟨hk, -, -⟩
      exact hk
  | some rl =>
    by_cases hrl : rl.isEmpty
    · have hrlnil : rl = [] := List.isEmpty_iff.mp hrl
      subst hrlnil
      obtain ⟨d, hd, hkeys, hlk⟩ := key am.dedup (fun m hm => List.mem_dedup.mp hm)
      refine ⟨d, hd, ?_, hlk⟩
      intro k
      rw [hkeys k, List.mem_dedup]
      constructor
      · intro hk
        refine ⟨hk, h4 k hk, fun rl' h hne => ?_⟩
        injection h with h2
        exact (hne h2.symm).elim
      · rintro ⟨hk, -, -⟩
        exact hk
    · obtain ⟨d, hd, hkeys, hlk⟩ :=
        key ((rl.filter (fun m => am.contains m)).dedup)
          (by
            intro m hm
            have h1 := List.mem_filter.mp (List.mem_dedup.mp hm)
            simpa using h1.2)
      refine ⟨d, ?_, ?_, hlk⟩
      · show buildValidators am
          (if rl.isEmpty then am.dedup
           else (rl.filter (fun m => am.contains m)).dedup) [] = Except.ok d
        rw [if_neg hrl]
        exact hd
      · intro k
        rw [hkeys k, List.mem_dedup, List.mem_filter]
        constructor
        · rintro ⟨hkrl, hkc⟩
          have hkam : k ∈ am := by simpa using hkc
          refine ⟨hkam, h4 k hkam, fun rl' h _ => ?_⟩
          injection h with h2
          exact h2 ▸ hkrl
        · rintro ⟨hkam, -, hrst⟩
          refine ⟨hrst rl rfl (fun he => hrl (by rw [he]; rfl)), by simpa using hkam⟩

/-- C5 witness: at a concrete resource and restriction set the amended
theorem applies and the call returns without error. -/
theorem C5_witness :
    validatorErr (get_permission_validators ["GET", "POST"]
      (some ["GET", "DELETE"])) = none := by
  obtain ⟨d, hd, -, -⟩ :=
    C5_get_permission_validators ["GET", "POST"] (some ["GET", "DELETE"])
      (by decide)
  rw [hd]
  rfl

/-- C3 counterexample: with two records matching the criteria, the default
`exists` does not return true (the claim demands true whenever one or more
records match) — instead the store's `MultipleObjectsReturned` condition
escapes as an exception, contradicting "it never raises". -/
theorem C3_counterexample :
    existsQ [("a", "1")] [[("a", "1")], [("a", "1"), ("b", "2")]] =
      .error .MultipleObjectsReturned := rfl

/-- C3 (amended): the default `exists(criteria)` returns true iff exactly
one record matches the criteria and false when none does (the record-absent
condition is caught internally); when two or more records match, the
store's `MultipleObjectsReturned` condition is not caught and escapes as an
exception. -/
theorem C3_exists (kwargs : List (String × String)) (store : List Record) :
    (objectsFilter kwargs store = [] → existsQ kwargs store = .ok false) ∧
    (∀ r, objectsFilter kwargs store = [r] → existsQ kwargs store = .ok true) ∧
    (2 ≤ (objectsFilter kwargs store).length →
      existsQ kwargs store = .error .MultipleObjectsReturned) := by
  unfold objectsFilter
  refine ⟨?_, ?_, ?_⟩
  · intro h
    unfold existsQ objectsGet
    rw [h]
  · intro r h
    unfold existsQ objectsGet
    rw [h]
  · intro h
    unfold existsQ objectsGet
    rcases hf : store.filter (matchesCriteria kwargs) with _ | ⟨r1, _ | ⟨r2, rs⟩⟩
    · rw [hf] at h
      simp at h
    · rw [hf] at h
      simp at h
    · rfl

/-- C3 witness: a uniquely matched record makes the amended theorem give
`true`. -/
theorem C3_witness : existsQ [("a", "1")] [[("a", "1")]] = .ok true :=
  (C3_exists [("a", "1")] [[("a", "1")]]).2.1 [("a", "1")] (by decide)

/-- C6: the default `create` flattens the body into field/value pairs; when
one or more records already match those exact values it returns
`DUPLICATE_ENTRY` and leaves the store unchanged (this covers the
multiple-match race); only when no record matches does it construct,
persist (append), and return the new record — and hence two identical
create calls persist exactly one record, the first returning the record and
the second `DUPLICATE_ENTRY`. -/
theorem C6_create (reqdata : List (String × String)) (store : List Record) :
    (1 ≤ (objectsFilter (flatten_dict reqdata) store).length →
      create reqdata store = (rc.DUPLICATE_ENTRY, store)) ∧
    (objectsFilter (flatten_dict reqdata) store = [] →
      create reqdata store =
        (.record (flatten_dict reqdata), store ++ [flatten_dict reqdata])) ∧
    (objectsFilter (flatten_dict reqdata) store = [] →
      (reqdata.map Prod.fst).Nodup →
      create reqdata store =
        (.record (flatten_dict reqdata), store ++ [flatten_dict reqdata]) ∧
      create reqdata (store ++ [flatten_dict reqdata]) =
        (rc.DUPLICATE_ENTRY, store ++ [flatten_dict reqdata]) ∧
      (store ++ [flatten_dict reqdata]).length = store.length + 1) := by
  have hdup : ∀ st : List Record,
      1 ≤ (objectsFilter (flatten_dict reqdata) st).length →
      create reqdata st = (rc.DUPLICATE_ENTRY, st) := by
    intro st h
    unfold objectsFilter at h
    unfold create objectsGet
    rcases hf : st.filter (matchesCriteria (flatten_dict reqdata))
      with _ | ⟨r1, _ | ⟨r2, rs⟩⟩
    · rw [hf] at h
      simp at h
    · rfl
    · rfl
  have hnew : objectsFilter (flatten_dict reqdata) store = [] →
      create reqdata store =
        (.record (flatten_dict reqdata), store ++ [flatten_dict reqdata]) := by
    intro h
    unfold objectsFilter at h
    unfold create objectsGet
    rw [h]
  refine ⟨hdup store, hnew, ?_⟩
  intro h hnodup
  refine ⟨hnew h, ?_, by simp⟩
  apply hdup
  unfold objectsFilter at h ⊢
  rw [List.filter_append, h, List.filter_cons,
    if_pos (matchesCriteria_self (flatten_dict reqdata) hnodup)]
  simp

/-- C6 witness: the two-identical-calls scenario at a concrete body and an
empty store. -/
theorem C6_witness :
    create [("a", "1")] [] = (.record [("a", "1")], [[("a", "1")]]) ∧
    create [("a", "1")] [[("a", "1")]] =
      (rc.DUPLICATE_ENTRY, [[("a", "1")]]) := by
  obtain ⟨h1, h2, -⟩ := (C6_create [("a", "1")] []).2.2 (by decide) (by decide)
  exact ⟨h1, h2⟩

/-- C7: the default `update` returns `BAD_REQUEST` with the store unchanged
when the primary-key field is absent from the keyword parameters;
`NOT_FOUND` when the key matches no record; `BAD_REQUEST` when the key
lookup is ambiguous; and on a unique match applies every field/value pair
of the flattened body onto the fetched record, persists the updated record,
and returns the `ALL_OK` sentinel (not the updated record). -/
theorem C7_update (pkfield : String) (kwargs reqdata : List (String × String))
    (store : List Record) :
    (List.lookup pkfield kwargs = none →
      update pkfield kwargs reqdata store = (rc.BAD_REQUEST, store)) ∧
    (∀ pkv, List.lookup pkfield kwargs = some pkv →
      (objectsFilter [(pkfield, pkv)] store = [] →
        update pkfield kwargs reqdata store = (rc.NOT_FOUND, store)) ∧
      (2 ≤ (objectsFilter [(pkfield, pkv)] store).length →
        update pkfield kwargs reqdata store = (rc.BAD_REQUEST, store)) ∧
      (∀ inst, objectsFilter [(pkfield, pkv)] store = [inst] →
        update pkfield kwargs reqdata store =
          (rc.ALL_OK,
            saveReplace pkfield pkv (setAttrs inst (flatten_dict reqdata))
              store) ∧
        setAttrs inst (flatten_dict reqdata) ∈
          (update pkfield kwargs reqdata store).2)) := by
  constructor
  · intro h
    unfold update
    rw [h]
  · intro pkv hpkv
    refine ⟨?_, ?_, ?_⟩
    · intro h
      unfold objectsFilter at h
      unfold update objectsGet
      simp only [hpkv]
      rw [h]
    · intro h
      unfold objectsFilter at h
      unfold update objectsGet
      simp only [hpkv]
      rcases hf : store.filter (matchesCriteria [(pkfield, pkv)])
        with _ | ⟨r1, _ | ⟨r2, rs⟩⟩
      · rw [hf] at h
        simp at h
      · rw [hf] at h
        simp at h
      · rfl
    · intro inst h
      unfold objectsFilter at h
      have heq : update pkfield kwargs reqdata store =
          (rc.ALL_OK,
            saveReplace pkfield pkv (setAttrs inst (flatten_dict reqdata))
              store) := by
        unfold update objectsGet
        simp only [hpkv]
        rw [h]
      refine ⟨heq, ?_⟩
      rw [heq]
      have hinst : inst ∈ store :=
        List.mem_of_mem_filter (h ▸ List.mem_singleton_self inst)
      have hmatch : matchesCriteria [(pkfield, pkv)] inst = true :=
        List.of_mem_filter (h ▸ List.mem_singleton_self inst)
      show setAttrs inst (flatten_dict reqdata) ∈
        saveReplace pkfield pkv (setAttrs inst (flatten_dict reqdata)) store
      unfold saveReplace
      exact List.mem_map.mpr ⟨inst, hinst, by rw [if_pos hmatch]⟩

/-- C7 witness: the theorem applied at a missing primary key and at a
unique match. -/
theorem C7_witness :
    update "id" [] [("a", "2")] [[("id", "1"), ("a", "0")]] =
      (rc.BAD_REQUEST, [[("id", "1"), ("a", "0")]]) ∧
    update "id" [("id", "1")] [("a", "2")] [[("id", "1"), ("a", "0")]] =
      (rc.ALL_OK, [[("id", "1"), ("a", "2")]]) := by
  constructor
  · exact (C7_update "id" [] [("a", "2")] [[("id", "1"), ("a", "0")]]).1
      (by decide)
  · have h := ((C7_update "id" [("id", "1")] [("a", "2")]
      [[("id", "1"), ("a", "0")]]).2 "1" (by decide)).2.2
      [("id", "1"), ("a", "0")] (by decide)
    exact h.1.trans (by decide)

/-- C8: the no-match sentinels differ by operation: a primary-key lookup
matching no record gives `NOT_FOUND` from both `read` and `update`, while
`delete` with non-matching criteria gives the distinct `NOT_HERE` sentinel;
an ambiguous `delete` match gives `DUPLICATE_ENTRY`, and a unique `delete`
match removes that record (the store shrinks by exactly it) and returns
`DELETED`. -/
theorem C8_sentinels (pkfield : String)
    (kwargs criteria reqdata : List (String × String)) (store : List Record) :
    (∀ pkv, List.lookup pkfield kwargs = some pkv →
      objectsFilter [(pkfield, pkv)] store = [] →
      BaseModelResource.read pkfield kwargs store = rc.NOT_FOUND ∧
      update pkfield kwargs reqdata store = (rc.NOT_FOUND, store)) ∧
    (objectsFilter criteria store = [] →
      delete criteria store = (rc.NOT_HERE, store)) ∧
    rc.NOT_HERE ≠ rc.NOT_FOUND ∧
    (2 ≤ (objectsFilter criteria store).length →
      delete criteria store = (rc.DUPLICATE_ENTRY, store)) ∧
    (∀ inst, objectsFilter criteria store = [inst] →
      (delete criteria store).1 = rc.DELETED ∧
      inst ∉ (delete criteria store).2 ∧
      (delete criteria store).2.length + 1 = store.length) := by
  refine ⟨?_, ?_, by decide, ?_, ?_⟩
  · intro pkv hpkv h
    unfold objectsFilter at h
    constructor
    · unfold BaseModelResource.read objectsGet
      simp only [hpkv]
      rw [h]
    · unfold update objectsGet
      simp only [hpkv]
      rw [h]
  · intro h
    unfold objectsFilter at h
    unfold delete objectsGet
    rw [h]
  · intro h
    unfold objectsFilter at h
    unfold delete objectsGet
    rcases hf : store.filter (matchesCriteria criteria)
      with _ | ⟨r1, _ | ⟨r2, rs⟩⟩
    · rw [hf] at h
      simp at h
    · rw [hf] at h
      simp at h
    · rfl
  · intro inst h
    unfold objectsFilter at h
    have heq : delete criteria store =
        (rc.DELETED, store.filter (fun r => !(matchesCriteria criteria r))) := by
      unfold delete objectsGet
      rw [h]
    rw [heq]
    have hmatch : matchesCriteria criteria inst = true :=
      List.of_mem_filter (h ▸ List.mem_singleton_self inst)
    refine ⟨rfl, ?_, ?_⟩
    · intro hmem
      have := List.of_mem_filter hmem
      rw [hmatch] at this
      simp at this
    · show (store.filter (fun r => !(matchesCriteria criteria r))).length + 1 =
        store.length
      have hlen := @List.length_eq_length_filter_add _ store
        (matchesCriteria criteria)
      rw [h] at hlen
      simp only [List.length_cons, List.length_nil] at hlen
      omega

/-- C8 witness: the theorem applied at a store holding one record. -/
theorem C8_witness :
    BaseModelResource.read "id" [("id", "9")] [[("id", "1")]] = rc.NOT_FOUND ∧
    delete [("id", "9")] [[("id", "1")]] =
      (rc.NOT_HERE, [[("id", "1")]]) := by
  have h := C8_sentinels "id" [("id", "9")] [("id", "9")] [] [[("id", "1")]]
  exact ⟨(h.1 "9" (by decide) (by decide)).1, h.2.1 (by decide)⟩

namespace Examples

/-- A concrete resource used to evaluate the dispatcher at specific
requests: the body deserializes to itself, only `read` is implemented,
and the serializer emits a plain JSON string. -/
def okResource : BaseResource.Resource where
  deserialize := fun r => .ok r
  read := some (fun _ => .ok (.payload (.value (.collection []))))
  create := none
  update := none
  delete := none
  serialize := fun _ _ => (.str "[]", "application/json")
  serializationTypes := ["json"]

/-- The same resource with a deserializer failing on a malformed body of a
supported content type. -/
def mimerResource : BaseResource.Resource :=
  { okResource with deserialize := fun _ => .error .MimerDataException }

/-- The same resource with a deserializer failing on an unsupported content
type. -/
def umtResource : BaseResource.Resource :=
  { okResource with
    deserialize := fun _ => .error .UnsupportedMediaTypeException }

def patchRequest : Request := { method := "PATCH", meta := [], data := [] }

def getRequest : Request := { method := "GET", meta := [], data := [] }

def putRequest : Request := { method := "PUT", meta := [], data := [] }

/-- The response `okResource` produces for `getRequest` on a cache miss. -/
def firstResponse : BaseResource.HttpResp :=
  { status_code := 200, content_type := "application/json", content := "[]",
    headers := [("X-Serialization-Format-Options", "json"),
                ("Cache-Control", "must-revalidate, private")] }

end Examples

/-- C2 counterexample: `okResource` maps no CRUD method for the verb
`PATCH`; the claim predicts a not-found sentinel result with no exception
crossing the dispatch boundary, but `get_result` raises `Http404` (its
`try` block catches only the two decode exceptions) and `dispatch`
propagates that exception to its caller. -/
theorem C2_counterexample :
    BaseResource.get_result Examples.okResource Examples.patchRequest =
      .error .Http404 ∧
    (BaseResource.dispatch Examples.okResource (some [])
        Examples.patchRequest).1 = .error .Http404 :=
  ⟨rfl, rfl⟩

/-- C2 (amended): for every request whose (successfully deserialized)
HTTP method resolves to no CRUD method — a verb outside the callmap, or a
missing CRUD attribute — the dispatcher raises `Http404`: the routing
failure surfaces as a not-found exception that propagates out of
`get_result` and out of `dispatch` (absent a cache hit) to the transport
layer, rather than being converted to a sentinel result; no CRUD method is
invoked. -/
theorem C2_routing (res : BaseResource.Resource) (req req' : Request)
    (hde : res.deserialize req = .ok req')
    (hmeth : BaseResource.getMeth res
      ((List.lookup (pyUpper req'.method) BaseResource.callmap).getD "") =
      none) :
    BaseResource.get_result res req = .error .Http404 ∧
    (∀ c, BaseResource.cacheGet c req = none →
      BaseResource.dispatch res (some c) req = (.error .Http404, some c)) ∧
    BaseResource.dispatch res none req = (.error .Http404, none) := by
  have hgr : BaseResource.get_result res req = .error .Http404 := by
    unfold BaseResource.get_result
    simp only [hde, hmeth]
  refine ⟨hgr, ?_, ?_⟩
  · intro c hc
    unfold BaseResource.dispatch
    simp only [hc, hgr]
  · unfold BaseResource.dispatch
    simp only [hgr]

/-- C2 witness: the amended theorem applied to a resource with no `update`
attribute and a `PUT` request. -/
theorem C2_witness :
    BaseResource.get_result Examples.okResource Examples.putRequest =
      .error .Http404 :=
  (C2_routing Examples.okResource Examples.putRequest Examples.putRequest
    rfl rfl).1

/-- C4: for every request whose body fails to deserialize, `get_result`
recovers the decode exception at the dispatch boundary and converts it to
a sentinel result — `UnsupportedMediaTypeException` becomes the
UNSUPPORTED_MEDIA_TYPE result with status 415 and `MimerDataException`
becomes the BAD_REQUEST result with status 400 — and no CRUD method is
invoked: the outcome is the same whatever the four CRUD methods are. -/
theorem C4_decode_errors (res : BaseResource.Resource) (req : Request) :
    (res.deserialize req = .error .UnsupportedMediaTypeException →
      ∀ r c u d, BaseResource.get_result
        { res with read := r, create := c, update := u, delete := d } req =
        .ok (.sentinelContainer .UNSUPPORTED_MEDIA_TYPE, [], 415)) ∧
    (res.deserialize req = .error .MimerDataException →
      ∀ r c u d, BaseResource.get_result
        { res with read := r, create := c, update := u, delete := d } req =
        .ok (.sentinelContainer .BAD_REQUEST, [], 400)) := by
  constructor
  · intro h r c u d
    unfold BaseResource.get_result
    simp only [h]
    rfl
  · intro h r c u d
    unfold BaseResource.get_result
    simp only [h]
    rfl

/-- C4 witness: the theorem applied to the two failing deserializers at a
concrete request. -/
theorem C4_witness :
    BaseResource.get_result Examples.umtResource Examples.getRequest =
      .ok (.sentinelContainer .UNSUPPORTED_MEDIA_TYPE, [], 415) ∧
    BaseResource.get_result Examples.mimerResource Examples.getRequest =
      .ok (.sentinelContainer .BAD_REQUEST, [], 400) :=
  ⟨(C4_decode_errors Examples.umtResource Examples.getRequest).1 rfl
      Examples.umtResource.read Examples.umtResource.create
      Examples.umtResource.update Examples.umtResource.delete,
   (C4_decode_errors Examples.mimerResource Examples.getRequest).2 rfl
      Examples.mimerResource.read Examples.mimerResource.create
      Examples.mimerResource.update Examples.mimerResource.delete⟩

/-- C9: with a response cache configured, a cache hit makes `dispatch`
return the cached response verbatim with the cache unchanged,
independently of the whole resource (so no deserialization, CRUD call,
serialization or re-store happens); on a miss, the fully assembled
response is stored in the cache keyed by the request before being
returned, so an identical second request yields the byte-identical
response, again independently of the resource. -/
theorem C9_cache (res : BaseResource.Resource)
    (c : List (Request × BaseResource.HttpResp)) (req : Request) :
    (∀ resp, BaseResource.cacheGet c req = some resp →
      ∀ res' : BaseResource.Resource,
        BaseResource.dispatch res' (some c) req = (.ok resp, some c)) ∧
    (BaseResource.cacheGet c req = none →
      ∀ resp c', BaseResource.dispatch res (some c) req =
          (.ok resp, some c') →
        c' = BaseResource.cacheSet c req resp ∧
        BaseResource.cacheGet c' req = some resp ∧
        (∀ res' : BaseResource.Resource,
          BaseResource.dispatch res' (some c') req = (.ok resp, some c'))) := by
  constructor
  · intro resp hresp res'
    unfold BaseResource.dispatch
    simp only [hresp]
  · intro hmiss resp c' hdisp
    unfold BaseResource.dispatch at hdisp
    simp only [hmiss] at hdisp
    cases hg : BaseResource.get_result res req with
    | error e =>
      rw [hg] at hdisp
      simp at hdisp
    | ok t =>
      obtain ⟨result, http_headers, status_code⟩ := t
      rw [hg] at hdisp
      simp only [Prod.mk.injEq, Except.ok.injEq, Option.some.injEq] at hdisp
      obtain ⟨hb, hc'⟩ := hdisp
      have hcs : c' = BaseResource.cacheSet c req resp := by
        rw [← hc', hb]
      have hhit : BaseResource.cacheGet c' req = some resp := by
        rw [hcs]
        unfold BaseResource.cacheGet BaseResource.cacheSet
        simp [List.lookup]
      refine ⟨hcs, hhit, ?_⟩
      intro res'
      unfold BaseResource.dispatch
      simp only [hhit]

/-- C9 witness: the concrete two-identical-requests scenario — the first
dispatch misses the empty cache, stores its response, and the second
dispatch returns that response verbatim. -/
theorem C9_witness :
    BaseResource.dispatch Examples.okResource
      (some (BaseResource.cacheSet [] Examples.getRequest
        Examples.firstResponse)) Examples.getRequest =
      (.ok Examples.firstResponse,
        some (BaseResource.cacheSet [] Examples.getRequest
          Examples.firstResponse)) := by
  have h := (C9_cache Examples.okResource [] Examples.getRequest).2 rfl
    Examples.firstResponse
    (BaseResource.cacheSet [] Examples.getRequest Examples.firstResponse) rfl
  exact h.2.2 Examples.okResource

/-- C1: if the explicit-fields header (`X-Fields`) names at least one field
present in the allowed-field mapping, `get_fields` returns exactly the
named-and-allowed fields — the result's names are precisely the header
names that are allowed — and the default and extra-fields logic is ignored
(the result is unchanged under any defaults, any extra-fields header, and
any result kind). If it names zero allowed fields (in particular when it is
absent, reading as `''`), `get_fields` returns the collection-variant
defaults for a collection (`QuerySet`) result and the object-variant
defaults otherwise, with every allowed field named by `X-Extra-Fields`
additively merged in. Unknown names in either header are simply dropped:
`get_fields` is total and the characterization only ever admits allowed
names from the headers. -/
theorem C1_field_selection (fields dlf dof : List FieldSpec)
    (request : Request) (qs : Bool) :
    ((∃ n ∈ pySplitComma ((List.lookup "HTTP_X_FIELDS" request.meta).getD ""),
        n ∈ (list_to_dict fields).map Prod.fst) →
      ((∀ n, n ∈ (get_fields fields dlf dof request qs).map FieldSpec.name ↔
          (n ∈ pySplitComma
              ((List.lookup "HTTP_X_FIELDS" request.meta).getD "") ∧
           n ∈ (list_to_dict fields).map Prod.fst)) ∧
       (∀ (dlf' dof' : List FieldSpec) (request' : Request) (qs' : Bool),
          List.lookup "HTTP_X_FIELDS" request'.meta =
            List.lookup "HTTP_X_FIELDS" request.meta →
          get_fields fields dlf' dof' request' qs' =
            get_fields fields dlf dof request qs))) ∧
    ((¬ ∃ n ∈ pySplitComma
          ((List.lookup "HTTP_X_FIELDS" request.meta).getD ""),
        n ∈ (list_to_dict fields).map Prod.fst) →
      ∀ n, n ∈ (get_fields fields dlf dof request qs).map FieldSpec.name ↔
        (n ∈ (if qs then dlf else dof).map FieldSpec.name ∨
         (n ∈ pySplitComma
            ((List.lookup "HTTP_X_EXTRA_FIELDS" request.meta).getD "") ∧
          n ∈ (list_to_dict fields).map Prod.fst))) := by
  constructor
  · intro hex
    have hsel : BaseModelResource.selectFields (list_to_dict fields)
        (pySplitComma ((List.lookup "HTTP_X_FIELDS" request.meta).getD ""))
        [] ≠ [] :=
      fun h => (selectFields_nil_iff _ _).mp h hex
    have hcond : ¬ ((BaseModelResource.selectFields (list_to_dict fields)
        (pySplitComma ((List.lookup "HTTP_X_FIELDS" request.meta).getD ""))
        []).isEmpty = true) :=
      fun h => hsel (List.isEmpty_iff.mp h)
    have hval : ∀ (dlf0 dof0 : List FieldSpec) (req0 : Request) (qs0 : Bool),
        List.lookup "HTTP_X_FIELDS" req0.meta =
          List.lookup "HTTP_X_FIELDS" request.meta →
        get_fields fields dlf0 dof0 req0 qs0 =
          dict_to_list (BaseModelResource.selectFields (list_to_dict fields)
            (pySplitComma ((List.lookup "HTTP_X_FIELDS" request.meta).getD ""))
            []) := by
      intro dlf0 dof0 req0 qs0 hmeta
      simp only [BaseModelResource.get_fields, hmeta]
      rw [if_neg hcond]
    constructor
    · intro n
      rw [hval dlf dof request qs rfl, keys_dict_to_list,
        mem_keys_selectFields]
      simp
    · intro dlf' dof' request' qs' hmeta
      rw [hval dlf' dof' request' qs' hmeta, hval dlf dof request qs rfl]
  · intro hex
    have hsel : BaseModelResource.selectFields (list_to_dict fields)
        (pySplitComma ((List.lookup "HTTP_X_FIELDS" request.meta).getD ""))
        [] = [] := (selectFields_nil_iff _ _).mpr hex
    have hcond : (BaseModelResource.selectFields (list_to_dict fields)
        (pySplitComma ((List.lookup "HTTP_X_FIELDS" request.meta).getD ""))
        []).isEmpty = true := by
      rw [hsel]
      rfl
    intro n
    have hval : get_fields fields dlf dof request qs =
        dict_to_list (BaseModelResource.selectFields (list_to_dict fields)
          (pySplitComma
            ((List.lookup "HTTP_X_EXTRA_FIELDS" request.meta).getD ""))
          (list_to_dict (if qs then dlf else dof))) := by
      simp only [BaseModelResource.get_fields]
      rw [if_pos hcond]
    rw [hval, keys_dict_to_list, mem_keys_selectFields,
      mem_keys_list_to_dict]

/-- C1 witness: the spec's additive-merge example — allowed fields
`{id, b}`, object defaults `{id}`, no explicit-fields header and
`X-Extra-Fields: b` on a single-object result select exactly `{id, b}`. -/
theorem C1_witness :
    "b" ∈ (get_fields [FieldSpec.leaf "id", FieldSpec.leaf "b"]
        [FieldSpec.leaf "id"] [FieldSpec.leaf "id"]
        { method := "GET", meta := [("HTTP_X_EXTRA_FIELDS", "b")], data := [] }
        false).map FieldSpec.name ∧
    "id" ∈ (get_fields [FieldSpec.leaf "id", FieldSpec.leaf "b"]
        [FieldSpec.leaf "id"] [FieldSpec.leaf "id"]
        { method := "GET", meta := [("HTTP_X_EXTRA_FIELDS", "b")], data := [] }
        false).map FieldSpec.name := by
  have h := (C1_field_selection [FieldSpec.leaf "id", FieldSpec.leaf "b"]
    [FieldSpec.leaf "id"] [FieldSpec.leaf "id"]
    { method := "GET", meta := [("HTTP_X_EXTRA_FIELDS", "b")], data := [] }
    false).2 (by decide)
  exact ⟨(h "b").mpr (Or.inr ⟨by decide, by decide⟩),
    (h "id").mpr (Or.inl (by decide))⟩

end Piston
